import Mathlib

/-!
# Verification of the EndBASIC storage and cloud-command layer

Shallow embedding of the storage-virtualization layer of the EndBASIC
repository: the in-memory drive (`src/std/src/storage/mem.rs`), and the
`LOGIN`/`SHARE` cloud commands (`src/client/src/cmds.rs`).

Rust `String` values are modelled as lists of UTF-8 bytes (`List Nat`)
wherever byte-level behaviour matters (`String::len`, `String::split_off`,
byte-lexicographic ordering); elsewhere Lean `String` is used directly.
Fallible Rust code returning `Result` is modelled with `Except`; a Rust
panic is modelled with a dedicated result constructor.
-/

/-- UTF-8 bytes of one Unicode scalar value (the standard 4-case encoder). -/
def utf8EncodeChar (c : Nat) : List Nat :=
  if c < 128 then [c]
  else if c < 2048 then [192 + c / 64, 128 + c % 64]
  else if c < 65536 then [224 + c / 4096, 128 + (c / 64) % 64, 128 + c % 64]
  else [240 + c / 262144, 128 + (c / 4096) % 64, 128 + (c / 64) % 64, 128 + c % 64]

/-- The UTF-8 byte string of a Lean string literal, modelling a Rust `String`'s
underlying bytes (`as_bytes()` / what `len` and `split_off` index into). -/
def strBytes (s : String) : List Nat :=
  (s.data.map (fun c => utf8EncodeChar c.toNat)).flatten

/-- Byte-lexicographic strict order, matching Rust `String`'s `Ord`. -/
def ltBytes : List Nat → List Nat → Bool
  | _, [] => false
  | [], _ :: _ => true
  | a :: as, b :: bs => if a < b then true else if a = b then ltBytes as bs else false

/-- Rust `str::is_char_boundary` test on a single byte: true when the byte is
not a UTF-8 continuation byte (i.e. `(b as i8) >= -0x40`). -/
def isNotCont (b : Nat) : Bool := b < 128 || 192 ≤ b

/-- Modelled from the spec: `FileAcls::add_reader` (the `FileAcls` type lives
in the storage command module, which is not part of the provided sources).
Per §4.3 of the spec it is an idempotent insertion into a duplicate-free
reader set kept in stable sorted order for display. -/
def add_reader (u : List Nat) : List (List Nat) → List (List Nat)
  | [] => [u]
  | v :: rest =>
    if ltBytes u v then u :: v :: rest
    else if u = v then v :: rest
    else v :: add_reader u rest

/-- Result of `ShareCommand::parse_acl`: success carries the updated `add` and
`remove` reader sets; `err` carries an `ArgumentError` message; `panicked`
models a Rust panic (raised by `String::split_off` on a non-boundary index). -/
inductive AclParseResult
  | ok (add remove : List (List Nat))
  | err (msg : List Nat)
  | panicked
  deriving DecidableEq

/-- The `ArgumentError` message built by `parse_acl`:
`format!("Invalid ACL '{}{}': must be of the form \"username+r\" or \"username-r\"", username, change)`. -/
def invalidAclMsg (username change : List Nat) : List Nat :=
  strBytes "Invalid ACL '" ++ username ++ change ++
    strBytes "': must be of the form \"username+r\" or \"username-r\""

/-- The `match (username, change.as_str())` of `parse_acl`
(src/client/src/cmds.rs lines 210-221), with its four guarded arms and the
catch-all error arm. -/
def parse_acl_match (username change : List Nat) (add remove : List (List Nat)) :
    AclParseResult :=
  if change = strBytes "+r" && !username.isEmpty then .ok (add_reader username add) remove
  else if change = strBytes "+R" && !username.isEmpty then .ok (add_reader username add) remove
  else if change = strBytes "-r" && !username.isEmpty then .ok add (add_reader username remove)
  else if change = strBytes "-R" && !username.isEmpty then .ok add (add_reader username remove)
  else .err (invalidAclMsg username change)

/-- `ShareCommand::parse_acl` (src/client/src/cmds.rs lines 207-223).
`acl.len() < 3` keeps the whole token as the username with an empty change;
otherwise `split_off(acl.len() - 2)` splits the token, panicking when byte
position `len - 2` is not a UTF-8 character boundary. -/
def parse_acl (acl : List Nat) (add remove : List (List Nat)) : AclParseResult :=
  if acl.length < 3 then
    parse_acl_match acl [] add remove
  else if isNotCont (acl.getD (acl.length - 2) 0) then
    parse_acl_match (acl.take (acl.length - 2)) (acl.drop (acl.length - 2)) add remove
  else
    .panicked

example : parse_acl (strBytes "user+r") [] [] = .ok [strBytes "user"] [] := by decide
example : parse_acl (strBytes "user-R") [] [] = .ok [] [strBytes "user"] := by decide
example : parse_acl (strBytes "+r") [] [] =
    .err (strBytes "Invalid ACL '+r': must be of the form \"username+r\" or \"username-r\"") := by
  decide
example : parse_acl (strBytes "€") [] [] = .panicked := by decide
example : parse_acl (strBytes "é+") [] [] = .panicked := by decide

/-!
## In-memory drive (src/std/src/storage/mem.rs)

`InMemoryDrive` holds `programs: HashMap<String, String>`.  The hash map is a
finite map from byte strings to byte strings; it is modelled here by its
canonical representation as an association list kept strictly sorted by key in
byte-lexicographic order (the order Rust's `BTreeMap<String, _>` uses, so
`enumerate`'s sorted output is the plain image of the representation).  All
reachable drive states satisfy the sortedness invariant, proved below.
-/

/-- Errors of the drive contract; the source only ever constructs
`io::Error::new(io::ErrorKind::NotFound, "Entry not found")`. -/
inductive DriveError
  | notFound (msg : String)
  deriving DecidableEq

/-- `Metadata` (src/std/src/storage/mod.rs): last-modification timestamp and
byte length.  The timestamp is modelled by its unix value. -/
structure Metadata where
  date : Int
  length : Nat
  deriving DecidableEq

/-- The fixed placeholder timestamp used by `InMemoryDrive::enumerate`:
`time::OffsetDateTime::from_unix_timestamp(1_588_757_875)`. -/
def memDriveDate : Int := 1588757875

/-- First-match association-list lookup (the abstract `HashMap::get`). -/
def lookupProg : List (List Nat × List Nat) → List Nat → Option (List Nat)
  | [], _ => none
  | (m, c) :: rest, n => if m = n then some c else lookupProg rest n

/-- Sorted insert-or-replace (the abstract `HashMap::insert`). -/
def insertProg (n c : List Nat) : List (List Nat × List Nat) → List (List Nat × List Nat)
  | [] => [(n, c)]
  | (m, d) :: rest =>
    if ltBytes n m then (n, c) :: (m, d) :: rest
    else if n = m then (n, c) :: rest
    else (m, d) :: insertProg n c rest

/-- Removal of the first entry with the given key (the abstract
`HashMap::remove`; keys are unique in every reachable state). -/
def eraseProg (n : List Nat) : List (List Nat × List Nat) → List (List Nat × List Nat)
  | [] => []
  | (m, c) :: rest => if m = n then rest else (m, c) :: eraseProg n rest

/-- `InMemoryDrive` (src/std/src/storage/mem.rs line 25). -/
structure InMemoryDrive where
  programs : List (List Nat × List Nat)
  deriving DecidableEq

/-- `InMemoryDrive::delete` (mem.rs lines 37-42). -/
def InMemoryDrive.delete (d : InMemoryDrive) (name : List Nat) :
    Except DriveError InMemoryDrive :=
  match lookupProg d.programs name with
  | some _ => .ok ⟨eraseProg name d.programs⟩
  | none => .error (.notFound "Entry not found")

/-- `InMemoryDrive::enumerate` (mem.rs lines 44-52): synthesizes `Metadata`
from the fixed timestamp and each content's byte length, returning the
entries sorted by name (the `BTreeMap` image of the sorted representation). -/
def InMemoryDrive.enumerate (d : InMemoryDrive) :
    Except DriveError (List (List Nat × Metadata)) :=
  .ok (d.programs.map (fun p => (p.1, ⟨memDriveDate, p.2.length⟩)))

/-- `InMemoryDrive::get` (mem.rs lines 54-59). -/
def InMemoryDrive.get (d : InMemoryDrive) (name : List Nat) :
    Except DriveError (List Nat) :=
  match lookupProg d.programs name with
  | some content => .ok content
  | none => .error (.notFound "Entry not found")

/-- `InMemoryDrive::put` (mem.rs lines 61-64): unconditional insert-or-
overwrite, always `Ok`. -/
def InMemoryDrive.put (d : InMemoryDrive) (name content : List Nat) :
    Except DriveError InMemoryDrive :=
  .ok ⟨insertProg name content d.programs⟩

/-- One drive operation, for reachability of drive states. -/
inductive MemOp
  | putOp (name content : List Nat)
  | deleteOp (name : List Nat)

/-- Apply one operation, keeping the prior state when `delete` fails. -/
def applyOp (d : InMemoryDrive) : MemOp → InMemoryDrive
  | .putOp n c => ⟨insertProg n c d.programs⟩
  | .deleteOp n =>
    match d.delete n with
    | .ok d' => d'
    | .error _ => d

/-- A sequence of `put`/`delete` operations applied from a starting state. -/
def applyOps (ops : List MemOp) (d : InMemoryDrive) : InMemoryDrive :=
  ops.foldl applyOp d

/-- All keys of the pair list are strictly greater than `k`. -/
def allKeyLt {α : Type} (k : List Nat) : List (List Nat × α) → Bool
  | [] => true
  | p :: t => ltBytes k p.1 && allKeyLt k t

/-- Strict byte-lexicographic sortedness of the keys of a pair list. -/
def pairsSorted {α : Type} : List (List Nat × α) → Bool
  | [] => true
  | p :: t => allKeyLt p.1 t && pairsSorted t

example : pairsSorted (insertProg (strBytes "B") [] (insertProg (strBytes "A") [] [])) = true := by
  decide

/-! ### Order lemmas for `ltBytes` -/

theorem ltBytes_irrefl (a : List Nat) : ltBytes a a = false := by
  induction a with
  | nil => rfl
  | cons x xs ih => simp [ltBytes, ih]

theorem ltBytes_trans (a : List Nat) :
    ∀ b c, ltBytes a b = true → ltBytes b c = true → ltBytes a c = true := by
  induction a with
  | nil =>
    intro b c hab hbc
    cases c with
    | nil => cases b <;> simp [ltBytes] at hbc
    | cons z zs => simp [ltBytes]
  | cons x xs ih =>
    intro b c hab hbc
    cases b with
    | nil => simp [ltBytes] at hab
    | cons y ys =>
      cases c with
      | nil => simp [ltBytes] at hbc
      | cons z zs =>
        simp only [ltBytes] at hab hbc ⊢
        by_cases hxy : x < y
        · by_cases hyz : y < z
          · simp [Nat.lt_trans hxy hyz]
          · simp only [if_neg hyz] at hbc
            by_cases hyz2 : y = z
            · subst hyz2; simp [hxy]
            · simp [hyz2] at hbc
        · simp only [if_neg hxy] at hab
          by_cases hxy2 : x = y
          · subst hxy2
            simp only [if_pos rfl] at hab
            by_cases hxz : x < z
            · simp [hxz]
            · simp only [if_neg hxz] at hbc ⊢
              by_cases hxz2 : x = z
              · subst hxz2
                simp only [if_pos rfl] at hbc ⊢
                exact ih ys zs hab hbc
              · simp [hxz2] at hbc
          · simp [hxy2] at hab

theorem ltBytes_total (a : List Nat) :
    ∀ b, ltBytes a b = true ∨ ltBytes b a = true ∨ a = b := by
  induction a with
  | nil =>
    intro b
    cases b with
    | nil => right; right; rfl
    | cons y ys => left; simp [ltBytes]
  | cons x xs ih =>
    intro b
    cases b with
    | nil => right; left; simp [ltBytes]
    | cons y ys =>
      rcases Nat.lt_trichotomy x y with hxy | hxy | hxy
      · left; simp [ltBytes, hxy]
      · subst hxy
        rcases ih ys with h | h | h
        · left; simp [ltBytes, h]
        · right; left; simp [ltBytes, h]
        · right; right; rw [h]
      · right; left; simp [ltBytes, hxy]

/-! ### Lookup, insert and erase lemmas -/

theorem lookupProg_insertProg_self (n c : List Nat) :
    ∀ l, lookupProg (insertProg n c l) n = some c := by
  intro l
  induction l with
  | nil => simp [insertProg, lookupProg]
  | cons p rest ih =>
    obtain ⟨m, d⟩ := p
    by_cases h1 : ltBytes n m
    · simp [insertProg, h1, lookupProg]
    · by_cases h2 : n = m
      · subst h2; simp [insertProg, ltBytes_irrefl, lookupProg]
      · have h2s : ¬m = n := fun h => h2 h.symm
        simp [insertProg, h1, h2, lookupProg, h2s, ih]

theorem lookupProg_insertProg_ne (n c n' : List Nat) (hne : n' ≠ n) :
    ∀ l, lookupProg (insertProg n c l) n' = lookupProg l n' := by
  intro l
  have hns : ¬n = n' := fun h => hne h.symm
  induction l with
  | nil => simp [insertProg, lookupProg, hns]
  | cons p rest ih =>
    obtain ⟨m, d⟩ := p
    by_cases h1 : ltBytes n m
    · simp [insertProg, h1, lookupProg, hns]
    · by_cases h2 : n = m
      · subst h2; simp [insertProg, h1, lookupProg, hns]
      · simp only [insertProg, if_neg h1, if_neg h2, lookupProg]
        by_cases h3 : m = n'
        · simp [h3]
        · simp [h3, ih]

theorem lookupProg_eraseProg_ne (n n' : List Nat) (hne : n' ≠ n) :
    ∀ l, lookupProg (eraseProg n l) n' = lookupProg l n' := by
  intro l
  induction l with
  | nil => simp [eraseProg]
  | cons p rest ih =>
    obtain ⟨m, d⟩ := p
    by_cases h1 : m = n
    · subst h1
      have : ¬m = n' := fun h => hne h.symm
      simp [eraseProg, lookupProg, this]
    · simp only [eraseProg, if_neg h1, lookupProg]
      by_cases h2 : m = n'
      · simp [h2]
      · simp [h2, ih]

theorem lookupProg_none_of_allKeyLt (n : List Nat) :
    ∀ l : List (List Nat × List Nat), allKeyLt n l = true → lookupProg l n = none := by
  intro l
  induction l with
  | nil => intro _; rfl
  | cons p rest ih =>
    obtain ⟨m, d⟩ := p
    intro h
    simp only [allKeyLt, Bool.and_eq_true] at h
    have hmn : ¬m = n := by
      intro he
      subst he
      rw [ltBytes_irrefl] at h
      exact absurd h.1 (by simp)
    simp [lookupProg, hmn, ih h.2]

theorem lookupProg_eraseProg_self (n : List Nat) :
    ∀ l : List (List Nat × List Nat), pairsSorted l = true →
      lookupProg (eraseProg n l) n = none := by
  intro l
  induction l with
  | nil => intro _; rfl
  | cons p rest ih =>
    obtain ⟨m, d⟩ := p
    intro hs
    simp only [pairsSorted, Bool.and_eq_true] at hs
    by_cases h1 : m = n
    · subst h1
      simp only [eraseProg, if_pos rfl]
      exact lookupProg_none_of_allKeyLt m rest hs.1
    · simp [eraseProg, h1, lookupProg, ih hs.2]

theorem mem_of_lookupProg (n c : List Nat) :
    ∀ l, lookupProg l n = some c → (n, c) ∈ l := by
  intro l
  induction l with
  | nil => intro h; simp [lookupProg] at h
  | cons p rest ih =>
    obtain ⟨m, d⟩ := p
    intro h
    by_cases h1 : m = n
    · subst h1
      simp [lookupProg] at h
      subst h
      exact List.mem_cons_self _ _
    · simp only [lookupProg, if_neg h1] at h
      exact List.mem_cons_of_mem _ (ih h)

theorem lookupProg_isSome_of_mem (n c : List Nat) :
    ∀ l, (n, c) ∈ l → lookupProg l n ≠ none := by
  intro l
  induction l with
  | nil => intro h; simp at h
  | cons p rest ih =>
    obtain ⟨m, d⟩ := p
    intro h hnone
    by_cases h1 : m = n
    · simp [lookupProg, h1] at hnone
    · simp only [lookupProg, if_neg h1] at hnone
      rcases List.mem_cons.mp h with he | hm
      · exact h1 (by injection he with h2 h3; exact h2.symm)
      · exact ih hm hnone

theorem lookupProg_of_mem_sorted (n c : List Nat) :
    ∀ l : List (List Nat × List Nat), pairsSorted l = true → (n, c) ∈ l →
      lookupProg l n = some c := by
  intro l
  induction l with
  | nil => intro _ h; simp at h
  | cons p rest ih =>
    obtain ⟨m, d⟩ := p
    intro hs hm
    simp only [pairsSorted, Bool.and_eq_true] at hs
    rcases List.mem_cons.mp hm with he | hmem
    · injection he with h1 h2
      subst h1; subst h2
      simp [lookupProg]
    · by_cases h1 : m = n
      · subst h1
        have : lookupProg rest m = none := lookupProg_none_of_allKeyLt m rest hs.1
        exact absurd this (lookupProg_isSome_of_mem m c rest hmem)
      · simp [lookupProg, h1, ih hs.2 hmem]

/-! ### Sortedness preservation -/

theorem head_insertProg (n c : List Nat) (l : List (List Nat × List Nat)) :
    insertProg n c l = (n, c) :: l ∨
    insertProg n c l = (n, c) :: l.tail ∨
    (∃ p rest, l = p :: rest ∧ insertProg n c l = p :: insertProg n c rest) := by
  cases l with
  | nil => left; rfl
  | cons p rest =>
    obtain ⟨m, d⟩ := p
    by_cases h1 : ltBytes n m
    · left; simp [insertProg, h1]
    · by_cases h2 : n = m
      · right; left; subst h2; simp [insertProg, ltBytes_irrefl]
      · right; right; exact ⟨(m, d), rest, rfl, by simp [insertProg, h1, h2]⟩

theorem allKeyLt_insertProg (k n c : List Nat) (hkn : ltBytes k n = true) :
    ∀ l : List (List Nat × List Nat),
      allKeyLt k l = true → allKeyLt k (insertProg n c l) = true := by
  intro l
  induction l with
  | nil => intro _; simp [insertProg, allKeyLt, hkn]
  | cons p rest ih =>
    obtain ⟨m, d⟩ := p
    intro h
    simp only [allKeyLt, Bool.and_eq_true] at h
    by_cases h1 : ltBytes n m
    · simp [insertProg, h1, allKeyLt, hkn, h.1, h.2]
    · by_cases h2 : n = m
      · subst h2; simp [insertProg, ltBytes_irrefl, allKeyLt, hkn, h.2]
      · simp [insertProg, h1, h2, allKeyLt, h.1, ih h.2]

theorem pairsSorted_insertProg (n c : List Nat) :
    ∀ l : List (List Nat × List Nat),
      pairsSorted l = true → pairsSorted (insertProg n c l) = true := by
  intro l
  induction l with
  | nil => intro _; simp [insertProg, pairsSorted, allKeyLt]
  | cons p rest ih =>
    obtain ⟨m, d⟩ := p
    intro hs
    simp only [pairsSorted, Bool.and_eq_true] at hs
    by_cases h1 : ltBytes n m
    · have hall : allKeyLt n ((m, d) :: rest) = true := by
        simp only [allKeyLt, Bool.and_eq_true]
        refine ⟨h1, ?_⟩
        -- every key of rest is above m, hence above n by transitivity
        have : ∀ t : List (List Nat × List Nat), allKeyLt m t = true → allKeyLt n t = true := by
          intro t
          induction t with
          | nil => intro _; rfl
          | cons q qt ihq =>
            intro hq
            simp only [allKeyLt, Bool.and_eq_true] at hq ⊢
            exact ⟨ltBytes_trans n m q.1 h1 hq.1, ihq hq.2⟩
        exact this rest hs.1
      simp only [insertProg, if_pos h1, pairsSorted, Bool.and_eq_true]
      exact ⟨hall, hs.1, hs.2⟩
    · by_cases h2 : n = m
      · subst h2
        simp only [insertProg, if_neg h1, if_pos rfl, pairsSorted, Bool.and_eq_true]
        exact hs
      · have hmn : ltBytes m n = true := by
          rcases ltBytes_total n m with h | h | h
          · exact absurd h h1
          · exact h
          · exact absurd h h2
        simp only [insertProg, if_neg h1, if_neg h2, pairsSorted, Bool.and_eq_true]
        exact ⟨allKeyLt_insertProg m n c hmn rest hs.1, ih hs.2⟩

theorem allKeyLt_eraseProg (k n : List Nat) :
    ∀ l : List (List Nat × List Nat),
      allKeyLt k l = true → allKeyLt k (eraseProg n l) = true := by
  intro l
  induction l with
  | nil => intro _; rfl
  | cons p rest ih =>
    obtain ⟨m, d⟩ := p
    intro h
    simp only [allKeyLt, Bool.and_eq_true] at h
    by_cases h1 : m = n
    · simp [eraseProg, h1, h.2]
    · simp only [eraseProg, if_neg h1, allKeyLt, Bool.and_eq_true]
      exact ⟨h.1, ih h.2⟩

theorem pairsSorted_eraseProg (n : List Nat) :
    ∀ l : List (List Nat × List Nat),
      pairsSorted l = true → pairsSorted (eraseProg n l) = true := by
  intro l
  induction l with
  | nil => intro _; rfl
  | cons p rest ih =>
    obtain ⟨m, d⟩ := p
    intro hs
    simp only [pairsSorted, Bool.and_eq_true] at hs
    by_cases h1 : m = n
    · simp [eraseProg, h1, hs.2]
    · simp only [eraseProg, if_neg h1, pairsSorted, Bool.and_eq_true]
      exact ⟨allKeyLt_eraseProg m n rest hs.1, ih hs.2⟩

/-- Every reachable `InMemoryDrive` state has a strictly sorted key list. -/
theorem pairsSorted_applyOps :
    ∀ (ops : List MemOp) (d : InMemoryDrive), pairsSorted d.programs = true →
      pairsSorted (applyOps ops d).programs = true := by
  intro ops
  induction ops with
  | nil => intro d h; exact h
  | cons op rest ih =>
    intro d h
    have hstep : pairsSorted (applyOp d op).programs = true := by
      cases op with
      | putOp n c => exact pairsSorted_insertProg n c d.programs h
      | deleteOp n =>
        simp only [applyOp, InMemoryDrive.delete]
        cases hl : lookupProg d.programs n with
        | none => exact h
        | some c => exact pairsSorted_eraseProg n d.programs h
    exact ih (applyOp d op) hstep

/-!
## Cloud commands (src/client/src/cmds.rs)

The `LOGIN` command is modelled as a state transformer over the session's
storage manager state (registered schemes, mount table), the console's
printed lines, and a counter of authentication calls made to the remote
service.  The remote service itself is an external collaborator and is passed
in as a function from credentials to a login response or an error message.
Expression evaluation (`endbasic_core`) is external; an argument expression is
modelled by the `Value` it evaluates to.
-/

/-- Argument separators of the AST (`endbasic_core::ast::ArgSep`). -/
inductive ArgSep
  | End
  | Long
  | Short
  deriving DecidableEq

/-- Evaluated argument values (`endbasic_core::ast::Value`); the `Double`
float variant is omitted, it behaves like the other non-text variants in
every command modelled here. -/
inductive Value
  | Text (s : String)
  | Integer (n : Int)
  | Boolean (b : Bool)
  deriving DecidableEq

/-- The command error taxonomy used by these commands
(`endbasic_core::syms::CallError`): argument errors, internal errors, and
wrapped I/O errors from the service or the storage layer.  Messages are
byte strings. -/
inductive CallError
  | argumentError (msg : List Nat)
  | internalError (msg : List Nat)
  | ioError (msg : List Nat)
  deriving DecidableEq

/-- `LoginResponse`: access token plus message-of-the-day lines. -/
structure LoginResponse where
  accessToken : List Nat
  motd : List String
  deriving DecidableEq

/-- Session state seen by `LOGIN`: the storage manager's scheme registry and
mount table, the console's printed lines, and the number of authentication
calls made against the remote service. -/
structure CloudState where
  schemes : List String
  mounts : List (String × String)
  output : List String
  authCalls : Nat
  deriving DecidableEq

/-- `Console::print` of one line. -/
def printLine (st : CloudState) (line : String) : CloudState :=
  { st with output := st.output ++ [line] }

/-- Modelled from the spec: `refill_and_print` (console module, not part of
the provided sources) prints one MOTD line to the console. -/
def refillAndPrint (st : CloudState) (line : String) : CloudState :=
  printLine st line

/-- Modelled from the spec: `Storage::register_scheme` (storage command
module, not part of the provided sources): binds the scheme name,
overwriting any prior binding for the same name (§4.4). -/
def registerScheme (st : CloudState) (scheme : String) : CloudState :=
  if scheme ∈ st.schemes then st else { st with schemes := scheme :: st.schemes }

/-- Splits `scheme://authority` at the first `://`, as character lists. -/
def splitSchemeChars : List Char → Option (List Char × List Char)
  | [] => none
  | ':' :: '/' :: '/' :: rest => some ([], rest)
  | c :: rest =>
    match splitSchemeChars rest with
    | some (s, a) => some (c :: s, a)
    | none => none

/-- Modelled from the spec: `Storage::mount` (storage command module, not
part of the provided sources): resolves the scheme of `target` in the
registry and binds the drive name, replacing any prior mount under that name;
fails when the scheme is unregistered or the target has no scheme (§4.4). -/
def mountStorage (st : CloudState) (name target : String) : Except CallError CloudState :=
  match splitSchemeChars target.data with
  | some (scheme, _authority) =>
    if String.mk scheme ∈ st.schemes then
      .ok { st with mounts := (name, target) :: st.mounts.filter (fun p => p.1 ≠ name) }
    else
      .error (.ioError (strBytes "Unknown file system scheme"))
  | none => .error (.ioError (strBytes "Invalid mount target"))

/-- The tail of `LoginCommand::do_login` (cmds.rs lines 96-103): register the
`cloud` scheme, then mount `CLOUD` at `cloud://<username>`. -/
def do_login_finish (username : String) (st : CloudState) : CloudState × Option CallError :=
  let st := registerScheme st "cloud"
  match mountStorage st "CLOUD" ("cloud://" ++ username) with
  | .error e => (st, some e)
  | .ok st' => (st', none)

/-- `LoginCommand::do_login` (cmds.rs lines 80-104): authenticate, print the
framed MOTD when non-empty, register the `cloud` scheme, mount `CLOUD` at
`cloud://<username>`.  The returned state reflects every mutation performed
before an early error return. -/
def do_login (svc : String → String → Except (List Nat) LoginResponse)
    (username password : String) (st : CloudState) : CloudState × Option CallError :=
  let st := { st with authCalls := st.authCalls + 1 }
  match svc username password with
  | .error e => (st, some (.ioError e))
  | .ok response =>
    let st :=
      if response.motd.isEmpty then st
      else
        let st := printLine st ""
        let st := printLine st "----- BEGIN SERVER MOTD -----"
        let st := response.motd.foldl refillAndPrint st
        let st := printLine st "-----  END SERVER MOTD  -----"
        printLine st ""
    do_login_finish username st

/-- `LoginCommand::exec` (cmds.rs lines 113-165).  `pwInput` models the line
returned by the secure console read used when no password argument is given
(`read_line_secure`, an external console collaborator). -/
def loginExec (svc : String → String → Except (List Nat) LoginResponse)
    (pwInput : String) (args : List (Option Value × ArgSep)) (st : CloudState) :
    CloudState × Option CallError :=
  if "cloud" ∈ st.schemes then
    (st, some (.internalError
      (strBytes "Support for calling LOGIN twice in the same session is not implemented")))
  else
    match args with
    | [(some (Value.Text username), ArgSep.End)] =>
      do_login svc username pwInput st
    | [(some _, ArgSep.End)] =>
      (st, some (.argumentError (strBytes "LOGIN requires a string as the username")))
    | [(some (Value.Text username), ArgSep.Long), (some (Value.Text password), ArgSep.End)] =>
      do_login svc username password st
    | [(some (Value.Text _), ArgSep.Long), (some _, ArgSep.End)] =>
      (st, some (.argumentError (strBytes "LOGIN requires a string as the password")))
    | [(some _, ArgSep.Long), (some _, ArgSep.End)] =>
      (st, some (.argumentError (strBytes "LOGIN requires a string as the username")))
    | _ =>
      (st, some (.argumentError (strBytes "LOGIN requires one or two arguments")))

/-!
## The `SHARE` command (cmds.rs lines 245-307)

`get_acls` and `update_acls` belong to the storage manager (not part of the
provided sources); they are abstracted as parameters.  `get_acls` is a
read-only query (in the source it is called through a shared borrow).  The
`ShareState` records the console's printed byte lines and the log of
`update_acls` invocations, which stands for every storage mutation the
command can cause.
-/

/-- State touched by `SHARE`: console output lines (as byte strings) and the
log of `update_acls` invocations `(filename, add, remove)`. -/
structure ShareState where
  output : List (List Nat)
  updates : List (String × List (List Nat) × List (List Nat))
  deriving DecidableEq

/-- How one `SHARE` invocation ends: normal return, a returned `CallError`,
or a Rust panic propagated out of `parse_acl`. -/
inductive ShareOutcome
  | ok
  | err (e : CallError)
  | panicked
  deriving DecidableEq

/-- Result of the ACL-argument loop (cmds.rs lines 283-304). -/
inductive ShareLoopRes
  | done (add remove : List (List Nat))
  | failed (msg : List Nat)
  | crashed
  deriving DecidableEq

/-- `Console::print` of one byte line. -/
def sprint (st : ShareState) (line : List Nat) : ShareState :=
  { st with output := st.output ++ [line] }

/-- The `for arg in &args[1..]` loop of `ShareCommand::exec`: rejects empty
slots and semicolon separators, evaluates each ACL argument, requires text,
and folds `parse_acl` over the `add`/`remove` sets. -/
def shareLoop : List (Option Value × ArgSep) → List (List Nat) → List (List Nat) →
    ShareLoopRes
  | [], add, remove => .done add remove
  | (none, _) :: _, _, _ => .failed (strBytes "SHARE arguments cannot be empty")
  | (some v, sep) :: rest, add, remove =>
    if sep = ArgSep.Short then
      .failed (strBytes "SHARE requires arguments to be separated by commas")
    else
      match v with
      | Value.Text t =>
        match parse_acl (strBytes t) add remove with
        | .ok add' remove' => shareLoop rest add' remove'
        | .err m => .failed m
        | .panicked => .crashed
      | _ => .failed (strBytes "SHARE requires strings as ACL changes")

/-- `ShareCommand::show_acls` (cmds.rs lines 226-242): fetch ACLs, then print
them inside a blank-line-padded section. -/
def showAcls (getAcls : String → Except (List Nat) (List (List Nat)))
    (filename : String) (st : ShareState) : ShareState × ShareOutcome :=
  match getAcls filename with
  | .error e => (st, .err (.ioError e))
  | .ok readers =>
    let st := sprint st []
    let st :=
      if readers.isEmpty then
        sprint st (strBytes "    No ACLs on " ++ strBytes filename)
      else
        readers.foldl (fun s acl => sprint s (strBytes "    " ++ acl))
          (sprint st (strBytes "    Reader ACLs on " ++ strBytes filename ++ strBytes ":"))
    (sprint st [], .ok)

/-- The part of `ShareCommand::exec` after the filename has been evaluated to
text: dispatch on the first separator, run the ACL loop, then invoke
`update_acls` exactly once.  `updateAcls` gives the outcome of the (remote)
storage call; its invocation is logged in `updates`. -/
def shareExecNamed (getAcls : String → Except (List Nat) (List (List Nat)))
    (updateAcls : String → List (List Nat) → List (List Nat) → Except (List Nat) Unit)
    (filename : String) (sep : ArgSep) (rest : List (Option Value × ArgSep))
    (st : ShareState) : ShareState × ShareOutcome :=
  if sep = ArgSep.End then
    showAcls getAcls filename st
  else if sep ≠ ArgSep.Long then
    (st, .err (.argumentError (strBytes "SHARE requires arguments to be separated by commas")))
  else
    match shareLoop rest [] [] with
    | .failed m => (st, .err (.argumentError m))
    | .crashed => (st, .panicked)
    | .done add remove =>
      let st' := { st with updates := st.updates ++ [(filename, add, remove)] }
      match updateAcls filename add remove with
      | .ok _ => (st', .ok)
      | .error e => (st', .err (.ioError e))

/-- `ShareCommand::exec` (cmds.rs lines 251-307). -/
def shareExec (getAcls : String → Except (List Nat) (List (List Nat)))
    (updateAcls : String → List (List Nat) → List (List Nat) → Except (List Nat) Unit)
    (args : List (Option Value × ArgSep)) (st : ShareState) : ShareState × ShareOutcome :=
  match args with
  | [] => (st, .err (.argumentError (strBytes "SHARE requires one or more arguments")))
  | (some (Value.Text filename), sep) :: rest =>
    shareExecNamed getAcls updateAcls filename sep rest st
  | (some _, _) :: _ =>
    (st, .err (.argumentError (strBytes "SHARE requires a string as the filename")))
  | (none, _) :: _ =>
    (st, .err (.argumentError (strBytes "SHARE requires a string as the filename")))

/-- Whether a `CallError` is argument-class. -/
def isArgErr : CallError → Bool
  | .argumentError _ => true
  | _ => false

/-- An ACL token parses successfully (independent of the current sets). -/
def aclTokenOk (t : String) : Bool :=
  match parse_acl (strBytes t) [] [] with
  | .ok _ _ => true
  | _ => false

/-- All checks of the ACL-argument loop succeed. -/
def shareTailOk : List (Option Value × ArgSep) → Bool
  | [] => true
  | (some (Value.Text t), sep) :: rest => sep ≠ ArgSep.Short && aclTokenOk t && shareTailOk rest
  | _ => false

/-- Every validation performed by `ShareCommand::exec` on an ACL-changing
invocation succeeds: filename argument present and text, first separator a
comma, no empty slot, no semicolon separator, every ACL argument text and
every token well-formed. -/
def shareArgsValid : List (Option Value × ArgSep) → Bool
  | (some (Value.Text _), ArgSep.Long) :: rest => shareTailOk rest
  | _ => false

/-! ### Helper lemmas about `parse_acl` -/

theorem getD_len_append (l f : List Nat) (d : Nat) : (l ++ f).getD l.length d = f.getD 0 d := by
  induction l with
  | nil => rfl
  | cons x xs ih => simpa using ih

theorem take_len_append (l f : List Nat) : (l ++ f).take l.length = l := by
  induction l with
  | nil => rfl
  | cons x xs ih => simp [ih]

theorem drop_len_append (l f : List Nat) : (l ++ f).drop l.length = f := by
  induction l with
  | nil => rfl
  | cons x xs ih => simp [ih]

theorem append_take_drop_assoc (n : Nat) (l r : List Nat) :
    l.take n ++ (l.drop n ++ r) = l ++ r := by
  rw [← List.append_assoc, List.take_append_drop]

theorem parse_acl_match_err (u c : List Nat) (add remove : List (List Nat))
    (h1 : c ≠ strBytes "+r") (h2 : c ≠ strBytes "+R")
    (h3 : c ≠ strBytes "-r") (h4 : c ≠ strBytes "-R") :
    parse_acl_match u c add remove = .err (invalidAclMsg u c) := by
  simp [parse_acl_match, h1, h2, h3, h4]

theorem parse_acl_match_ne_panicked (u c : List Nat) (add remove : List (List Nat)) :
    parse_acl_match u c add remove ≠ .panicked := by
  unfold parse_acl_match
  split_ifs <;> simp

theorem parse_acl_append (p f : List Nat) (add remove : List (List Nat))
    (hp : p ≠ []) (hf : f.length = 2) (hc : isNotCont (f.getD 0 0) = true) :
    parse_acl (p ++ f) add remove = parse_acl_match p f add remove := by
  have hp1 : 0 < p.length := List.length_pos.mpr hp
  have hlen : (p ++ f).length = p.length + 2 := by simp [hf]
  have hsub : (p ++ f).length - 2 = p.length := by omega
  have h3 : ¬ ((p ++ f).length < 3) := by omega
  unfold parse_acl
  rw [if_neg h3, hsub, getD_len_append p f 0, take_len_append, drop_len_append, if_pos hc]

/-!
## Claim theorems
-/

/-- **C1** (counterexample).  The claim says every token other than
`<nonempty>` followed by `+r`, `+R`, `-r` or `-R` makes `parse_acl` fail with the exact
`Invalid ACL '<token>': ...` `ArgumentError`.  The three-byte token `"€"`
(bytes `E2 82 AC`) is such a token, yet `parse_acl` panics on it — byte
position `len - 2 = 1` falls inside the multi-byte character, so
`String::split_off` panics instead of returning the error. -/
theorem c1_counterexample :
    parse_acl (strBytes "€") [] [] = .panicked := by
  decide

/-- **C1** (amended).  For every token of the form `<nonempty prefix>+r` or
`<nonempty prefix>+R` (as byte strings), `parse_acl` adds the prefix as a
reader to the `add` set; for `-r`/`-R` it adds the prefix to the `remove`
set.  Every other token that is shorter than 3 bytes, or whose byte at
position `len - 2` is a UTF-8 character boundary, fails with an
`ArgumentError` whose message is exactly
`Invalid ACL '<token>': must be of the form "username+r" or "username-r"`
and therefore contains the offending token verbatim; (per the
counterexample, a token of length ≥ 3 whose byte at `len - 2` is a UTF-8
continuation byte instead makes `parse_acl` panic). -/
theorem c1_parse_acl_adds_readers_amended :
    (∀ (p : List Nat) (add remove : List (List Nat)), p ≠ [] →
      parse_acl (p ++ strBytes "+r") add remove = .ok (add_reader p add) remove ∧
      parse_acl (p ++ strBytes "+R") add remove = .ok (add_reader p add) remove ∧
      parse_acl (p ++ strBytes "-r") add remove = .ok add (add_reader p remove) ∧
      parse_acl (p ++ strBytes "-R") add remove = .ok add (add_reader p remove)) ∧
    (∀ (acl : List Nat) (add remove : List (List Nat)),
      (acl.length < 3 ∨
        (isNotCont (acl.getD (acl.length - 2) 0) = true ∧
          acl.drop (acl.length - 2) ≠ strBytes "+r" ∧
          acl.drop (acl.length - 2) ≠ strBytes "+R" ∧
          acl.drop (acl.length - 2) ≠ strBytes "-r" ∧
          acl.drop (acl.length - 2) ≠ strBytes "-R")) →
      parse_acl acl add remove =
        .err (strBytes "Invalid ACL '" ++ acl ++
          strBytes "': must be of the form \"username+r\" or \"username-r\"")) := by
  constructor
  · intro p add remove hp
    have hpe : p.isEmpty = false := by
      cases p with
      | nil => exact absurd rfl hp
      | cons x xs => rfl
    refine ⟨?_, ?_, ?_, ?_⟩
    · rw [parse_acl_append p _ add remove hp (by decide) (by decide)]
      simp [parse_acl_match, hpe]
    · rw [parse_acl_append p _ add remove hp (by decide) (by decide)]
      simp [parse_acl_match, hpe,
        show strBytes "+R" ≠ strBytes "+r" from by decide]
    · rw [parse_acl_append p _ add remove hp (by decide) (by decide)]
      simp [parse_acl_match, hpe,
        show strBytes "-r" ≠ strBytes "+r" from by decide,
        show strBytes "-r" ≠ strBytes "+R" from by decide]
    · rw [parse_acl_append p _ add remove hp (by decide) (by decide)]
      simp [parse_acl_match, hpe,
        show strBytes "-R" ≠ strBytes "+r" from by decide,
        show strBytes "-R" ≠ strBytes "+R" from by decide,
        show strBytes "-R" ≠ strBytes "-r" from by decide]
  · intro acl add remove h
    by_cases hs : acl.length < 3
    · rw [parse_acl, if_pos hs,
        parse_acl_match_err acl [] add remove (by decide) (by decide) (by decide) (by decide)]
      simp [invalidAclMsg]
    · have hb : isNotCont (acl.getD (acl.length - 2) 0) = true ∧
          acl.drop (acl.length - 2) ≠ strBytes "+r" ∧
          acl.drop (acl.length - 2) ≠ strBytes "+R" ∧
          acl.drop (acl.length - 2) ≠ strBytes "-r" ∧
          acl.drop (acl.length - 2) ≠ strBytes "-R" := by
        rcases h with h | h
        · exact absurd h hs
        · exact h
      obtain ⟨hbnd, h1, h2, h3, h4⟩ := hb
      rw [parse_acl, if_neg hs, if_pos hbnd,
        parse_acl_match_err _ _ add remove h1 h2 h3 h4]
      simp only [invalidAclMsg, AclParseResult.err.injEq]
      rw [List.append_assoc (strBytes "Invalid ACL '"), List.take_append_drop]

/-- **C1** (witness): the amended theorem applied to the concrete token
`"user" ++ "+r"` and to the concrete malformed token `"r"`. -/
theorem c1_witness :
    parse_acl (strBytes "user" ++ strBytes "+r") [] [] =
      .ok (add_reader (strBytes "user") []) [] ∧
    parse_acl (strBytes "r") [] [] =
      .err (strBytes "Invalid ACL '" ++ strBytes "r" ++
        strBytes "': must be of the form \"username+r\" or \"username-r\"") := by
  constructor
  · exact (c1_parse_acl_adds_readers_amended.1 (strBytes "user") [] [] (by decide)).1
  · exact c1_parse_acl_adds_readers_amended.2 (strBytes "r") [] [] (by decide)

/-- **C2** (counterexample).  The claim says `parse_acl` is total and never
crashes, including on tokens containing multi-byte characters, and that every
token shorter than 3 characters is rejected without crashing.  The token
`"é+"` is 2 characters but 3 bytes (`C3 A9 2B`), so the code takes the
`split_off` path and panics: byte position `len - 2 = 1` falls inside `é`. -/
theorem c2_counterexample :
    parse_acl (strBytes "é+") [] [] = .panicked ∧ "é+".length = 2 := by
  constructor
  · decide
  · rfl

/-- **C2** (amended).  `parse_acl` is total except on the panic path: a token
shorter than 3 **bytes** is treated entirely as a username with an empty
operator and always fails with the `Invalid ACL` `ArgumentError`; a token of
at least 3 bytes whose byte at position `len - 2` is a UTF-8 character
boundary never panics (it returns `ok` or an `ArgumentError`); a token of at
least 3 bytes whose byte at position `len - 2` is a continuation byte makes
`parse_acl` panic. -/
theorem c2_parse_acl_totality_amended :
    ∀ (acl : List Nat) (add remove : List (List Nat)),
      (acl.length < 3 →
        parse_acl acl add remove =
          .err (strBytes "Invalid ACL '" ++ acl ++
            strBytes "': must be of the form \"username+r\" or \"username-r\"")) ∧
      (3 ≤ acl.length → isNotCont (acl.getD (acl.length - 2) 0) = true →
        parse_acl acl add remove ≠ .panicked) ∧
      (3 ≤ acl.length → isNotCont (acl.getD (acl.length - 2) 0) = false →
        parse_acl acl add remove = .panicked) := by
  intro acl add remove
  refine ⟨?_, ?_, ?_⟩
  · intro hs
    rw [parse_acl, if_pos hs,
      parse_acl_match_err acl [] add remove (by decide) (by decide) (by decide) (by decide)]
    simp [invalidAclMsg]
  · intro h3 hbnd
    have hs : ¬ acl.length < 3 := by omega
    rw [parse_acl, if_neg hs, if_pos hbnd]
    exact parse_acl_match_ne_panicked _ _ add remove
  · intro h3 hbnd
    have hs : ¬ acl.length < 3 := by omega
    have hbf : ¬ (isNotCont (acl.getD (acl.length - 2) 0) = true) := by
      rw [hbnd]; simp
    rw [parse_acl, if_neg hs, if_neg hbf]

/-- **C2** (witness): the amended theorem applied to the 1-byte token `"r"`
(rejected with the exact message, no panic) and to the 3-byte ASCII token
`"a+r"` (boundary holds, no panic). -/
theorem c2_witness :
    parse_acl (strBytes "r") [] [strBytes "q"] =
      .err (strBytes "Invalid ACL '" ++ strBytes "r" ++
        strBytes "': must be of the form \"username+r\" or \"username-r\"") ∧
    parse_acl (strBytes "a+r") [] [] ≠ .panicked := by
  constructor
  · exact (c2_parse_acl_totality_amended (strBytes "r") [] [strBytes "q"]).1 (by decide)
  · exact (c2_parse_acl_totality_amended (strBytes "a+r") [] []).2.1 (by decide) (by decide)

/-! ### Drive claim helper lemmas -/

theorem get_eq_ok_iff (d : InMemoryDrive) (n c : List Nat) :
    d.get n = .ok c ↔ lookupProg d.programs n = some c := by
  unfold InMemoryDrive.get
  cases h : lookupProg d.programs n <;> simp [h]

theorem allKeyLt_map_meta (k : List Nat) (f : List Nat × List Nat → Metadata) :
    ∀ l : List (List Nat × List Nat),
      allKeyLt k (l.map (fun p => (p.1, f p))) = allKeyLt k l := by
  intro l
  induction l with
  | nil => rfl
  | cons p rest ih => simp [allKeyLt, ih]

theorem pairsSorted_map_meta (f : List Nat × List Nat → Metadata) :
    ∀ l : List (List Nat × List Nat),
      pairsSorted (l.map (fun p => (p.1, f p))) = pairsSorted l := by
  intro l
  induction l with
  | nil => rfl
  | cons p rest ih => simp [pairsSorted, allKeyLt_map_meta, ih]

/-- **C5**: for every drive state, name and content, `put` succeeds (it never
returns an error, whether or not the entry exists, overwriting any prior
content), and a subsequent `get` of the same name returns exactly the
content. -/
theorem c5_put_get_roundtrip (d : InMemoryDrive) (name content : List Nat) :
    ∃ d', d.put name content = .ok d' ∧ d'.get name = .ok content := by
  refine ⟨⟨insertProg name content d.programs⟩, rfl, ?_⟩
  simp [InMemoryDrive.get, lookupProg_insertProg_self]

/-- **C6**: deleting an entry right after putting it succeeds and makes a
subsequent `get` fail with `NotFound`; `delete` and `get` on an absent name
also fail with `NotFound` (the exact source error message is
`"Entry not found"`). -/
theorem c6_delete_then_get_not_found (d : InMemoryDrive) (name content : List Nat)
    (hsorted : pairsSorted d.programs = true) :
    (∀ d1, d.put name content = .ok d1 →
      ∃ d2, d1.delete name = .ok d2 ∧
        d2.get name = .error (.notFound "Entry not found")) ∧
    (lookupProg d.programs name = none →
      d.delete name = .error (.notFound "Entry not found") ∧
      d.get name = .error (.notFound "Entry not found")) := by
  constructor
  · intro d1 h1
    have hd1 : d1 = ⟨insertProg name content d.programs⟩ := by
      simp only [InMemoryDrive.put, Except.ok.injEq] at h1
      exact h1.symm
    subst hd1
    refine ⟨⟨eraseProg name (insertProg name content d.programs)⟩, ?_, ?_⟩
    · simp [InMemoryDrive.delete, lookupProg_insertProg_self]
    · have hs1 : pairsSorted (insertProg name content d.programs) = true :=
        pairsSorted_insertProg name content d.programs hsorted
      simp [InMemoryDrive.get,
        lookupProg_eraseProg_self name (insertProg name content d.programs) hs1]
  · intro habs
    constructor
    · simp [InMemoryDrive.delete, habs]
    · simp [InMemoryDrive.get, habs]

/-- **C6** (witness): the theorem applied to the empty drive and, for the
put-then-delete part, to a singleton insertion. -/
theorem c6_witness :
    ((InMemoryDrive.mk []).delete (strBytes "A") = .error (.notFound "Entry not found") ∧
      (InMemoryDrive.mk []).get (strBytes "A") = .error (.notFound "Entry not found")) ∧
    (∃ d2, (InMemoryDrive.mk (insertProg (strBytes "A") (strBytes "x") [])).delete
        (strBytes "A") = .ok d2 ∧
      d2.get (strBytes "A") = .error (.notFound "Entry not found")) := by
  constructor
  · exact (c6_delete_then_get_not_found ⟨[]⟩ (strBytes "A") (strBytes "x") (by decide)).2
      (by decide)
  · exact (c6_delete_then_get_not_found ⟨[]⟩ (strBytes "A") (strBytes "x") (by decide)).1
      ⟨insertProg (strBytes "A") (strBytes "x") []⟩ rfl

/-- **C7**: after any sequence of `put`/`delete` operations starting from the
default (empty) drive, `enumerate` succeeds and returns exactly the
currently-live entry names in strictly sorted order, each with `length` equal
to the byte length of its content and with the one fixed placeholder
timestamp, identical for every entry and independent of wall-clock time. -/
theorem c7_enumerate_live_sorted (ops : List MemOp) :
    ∃ es, (applyOps ops ⟨[]⟩).enumerate = .ok es ∧
      pairsSorted es = true ∧
      (∀ n, (∃ m, (n, m) ∈ es) ↔ (∃ c, (applyOps ops ⟨[]⟩).get n = .ok c)) ∧
      (∀ n m, (n, m) ∈ es → ∃ c, (applyOps ops ⟨[]⟩).get n = .ok c ∧
        m.length = c.length ∧ m.date = memDriveDate) := by
  have hsorted : pairsSorted (applyOps ops ⟨[]⟩).programs = true :=
    pairsSorted_applyOps ops ⟨[]⟩ rfl
  have henum : (applyOps ops ⟨[]⟩).enumerate = .ok ((applyOps ops ⟨[]⟩).programs.map
      (fun p => (p.1, Metadata.mk memDriveDate p.2.length))) := rfl
  refine ⟨_, henum, ?_, ?_, ?_⟩
  · rw [pairsSorted_map_meta]
    exact hsorted
  · intro n
    constructor
    · rintro ⟨m, hm⟩
      obtain ⟨⟨pn, pc⟩, hp, he⟩ := List.mem_map.mp hm
      simp only [Prod.mk.injEq] at he
      obtain ⟨h1, h2⟩ := he
      subst h1
      exact ⟨pc, (get_eq_ok_iff _ _ _).mpr (lookupProg_of_mem_sorted _ pc _ hsorted hp)⟩
    · rintro ⟨c, hc⟩
      have hmem : (n, c) ∈ (applyOps ops ⟨[]⟩).programs :=
        mem_of_lookupProg n c _ ((get_eq_ok_iff _ _ _).mp hc)
      exact ⟨Metadata.mk memDriveDate c.length, List.mem_map.mpr ⟨(n, c), hmem, rfl⟩⟩
  · intro n m hm
    obtain ⟨⟨pn, pc⟩, hp, he⟩ := List.mem_map.mp hm
    simp only [Prod.mk.injEq] at he
    obtain ⟨h1, h2⟩ := he
    subst h1
    refine ⟨pc, (get_eq_ok_iff _ _ _).mpr (lookupProg_of_mem_sorted _ pc _ hsorted hp), ?_, ?_⟩
    · rw [← h2]
    · rw [← h2]

/-- **C9**: per-entry frame property: `put name content` leaves the result of
`get` on every other name unchanged, and a successful `delete name` leaves
the result of `get` on every other name unchanged. -/
theorem c9_frame_property (d : InMemoryDrive) (name content other : List Nat)
    (hne : other ≠ name) :
    (∀ d1, d.put name content = .ok d1 → d1.get other = d.get other) ∧
    (∀ d2, d.delete name = .ok d2 → d2.get other = d.get other) := by
  constructor
  · intro d1 h1
    have hd1 : d1 = ⟨insertProg name content d.programs⟩ := by
      simp only [InMemoryDrive.put, Except.ok.injEq] at h1
      exact h1.symm
    subst hd1
    simp [InMemoryDrive.get, lookupProg_insertProg_ne name content other hne]
  · intro d2 h2
    unfold InMemoryDrive.delete at h2
    cases hl : lookupProg d.programs name with
    | none => rw [hl] at h2; exact absurd h2 (by simp)
    | some c =>
      rw [hl] at h2
      simp only [Except.ok.injEq] at h2
      subst h2
      simp [InMemoryDrive.get, lookupProg_eraseProg_ne name other hne]

/-- **C9** (witness): the frame theorem applied to a concrete two-entry
drive, a `put` on `"A"` and a spectator entry `"B"`. -/
theorem c9_witness :
    (InMemoryDrive.mk (insertProg (strBytes "A") (strBytes "x")
        [(strBytes "B", strBytes "y")])).get (strBytes "B") =
      (InMemoryDrive.mk [(strBytes "B", strBytes "y")]).get (strBytes "B") :=
  (c9_frame_property ⟨[(strBytes "B", strBytes "y")]⟩ (strBytes "A") (strBytes "x")
    (strBytes "B") (by decide)).1 _ rfl

/-! ### LOGIN claim helper lemmas -/

theorem registerScheme_output (st : CloudState) (s : String) :
    (registerScheme st s).output = st.output := by
  unfold registerScheme
  split_ifs <;> rfl

theorem mountStorage_ok_output (st : CloudState) (name target : String) (st' : CloudState)
    (h : mountStorage st name target = .ok st') : st'.output = st.output := by
  unfold mountStorage at h
  cases hsp : splitSchemeChars target.data with
  | none => rw [hsp] at h; exact absurd h (by simp)
  | some pa =>
    obtain ⟨s, a⟩ := pa
    rw [hsp] at h
    by_cases hin : String.mk s ∈ st.schemes
    · simp only [hin, if_true, Except.ok.injEq] at h
      rw [← h]
    · simp only [hin, if_false] at h
      exact absurd h (by simp)

theorem foldl_refillAndPrint_output (lines : List String) :
    ∀ st : CloudState, (List.foldl refillAndPrint st lines).output = st.output ++ lines := by
  induction lines with
  | nil => intro st; simp
  | cons l ls ih =>
    intro st
    simp [refillAndPrint, printLine, ih]

/-- **C3**: invoking `LOGIN` while the `cloud` scheme is already registered
fails with an `InternalError` carrying exactly the message
`Support for calling LOGIN twice in the same session is not implemented`,
returns the session state completely unchanged (same scheme registry, same
mount table, same console output) and performs no authentication call
(`authCalls` is unchanged because the returned state is the input state). -/
theorem c3_login_twice_rejected (svc : String → String → Except (List Nat) LoginResponse)
    (pw : String) (args : List (Option Value × ArgSep)) (st : CloudState)
    (h : "cloud" ∈ st.schemes) :
    loginExec svc pw args st = (st, some (.internalError
      (strBytes "Support for calling LOGIN twice in the same session is not implemented"))) := by
  simp [loginExec, h]

/-- **C3** (witness): the theorem applied to a session whose scheme registry
already contains `cloud`. -/
theorem c3_witness :
    loginExec (fun _ _ => .error []) "" []
        ⟨["cloud"], [("CLOUD", "cloud://me")], [], 1⟩ =
      (⟨["cloud"], [("CLOUD", "cloud://me")], [], 1⟩, some (.internalError
        (strBytes "Support for calling LOGIN twice in the same session is not implemented"))) :=
  c3_login_twice_rejected _ _ _ _ (by simp)

/-- **C4**: when the remote service rejects authentication, `LOGIN` surfaces
the service error's message verbatim (wrapped as the I/O-class `CallError`)
and modifies neither the scheme registry nor the mount table nor the console
output; only the authentication-call counter advances, showing that scheme
registration and mounting happen only after a successful authentication. -/
theorem c4_login_auth_failure_no_mutation
    (svc : String → String → Except (List Nat) LoginResponse)
    (pw u p : String) (st : CloudState) (e : List Nat)
    (hns : "cloud" ∉ st.schemes) (hsvc : svc u p = .error e) :
    loginExec svc pw
        [(some (Value.Text u), ArgSep.Long), (some (Value.Text p), ArgSep.End)] st =
      ({ st with authCalls := st.authCalls + 1 }, some (.ioError e)) := by
  simp [loginExec, hns, do_login, hsvc]

/-- **C4** (witness): the theorem applied to a service that rejects the
credentials with message `Unknown user`. -/
theorem c4_witness :
    loginExec (fun _ _ => .error (strBytes "Unknown user")) ""
        [(some (Value.Text "u"), ArgSep.Long), (some (Value.Text "p"), ArgSep.End)]
        ⟨[], [], [], 0⟩ =
      (⟨[], [], [], 1⟩, some (.ioError (strBytes "Unknown user"))) :=
  c4_login_auth_failure_no_mutation _ "" "u" "p" ⟨[], [], [], 0⟩ _ (by simp) rfl

theorem do_login_finish_output (u : String) (stp : CloudState) :
    (do_login_finish u stp).1.output = stp.output := by
  simp only [do_login_finish]
  split
  · simp [registerScheme_output]
  · rename_i st' heq
    simpa using (mountStorage_ok_output _ _ _ _ heq).trans (registerScheme_output _ _)

/-- **C10**: during a successful `LOGIN` (authentication succeeds), an empty
message-of-the-day prints nothing at all for the MOTD, and a non-empty one
prints exactly a blank line, the `----- BEGIN SERVER MOTD -----` banner, the
MOTD lines in order, the `-----  END SERVER MOTD  -----` banner, and a blank
line. -/
theorem c10_motd_framing (svc : String → String → Except (List Nat) LoginResponse)
    (pw u p : String) (st : CloudState) (resp : LoginResponse)
    (hns : "cloud" ∉ st.schemes) (hsvc : svc u p = .ok resp) :
    (resp.motd = [] →
      (loginExec svc pw
        [(some (Value.Text u), ArgSep.Long), (some (Value.Text p), ArgSep.End)] st).1.output
        = st.output) ∧
    (resp.motd ≠ [] →
      (loginExec svc pw
        [(some (Value.Text u), ArgSep.Long), (some (Value.Text p), ArgSep.End)] st).1.output
        = st.output ++ [""] ++ ["----- BEGIN SERVER MOTD -----"] ++ resp.motd ++
          ["-----  END SERVER MOTD  -----"] ++ [""]) := by
  have hexec : loginExec svc pw
      [(some (Value.Text u), ArgSep.Long), (some (Value.Text p), ArgSep.End)] st =
      do_login svc u p st := by
    simp [loginExec, hns]
  rw [hexec]
  constructor
  · intro hm
    simp only [do_login, hsvc, hm, List.isEmpty_nil, if_true]
    exact do_login_finish_output u _
  · intro hm
    have hne : resp.motd.isEmpty = false := by
      cases hmm : resp.motd with
      | nil => exact absurd hmm hm
      | cons a as => rfl
    simp only [do_login, hsvc, hne, Bool.false_eq_true, if_false]
    rw [do_login_finish_output u _]
    simp [printLine, foldl_refillAndPrint_output, List.append_assoc]

/-- **C10** (witness): the theorem applied to a service returning an empty
MOTD and to one returning a two-line MOTD. -/
theorem c10_witness :
    (loginExec (fun _ _ => .ok ⟨[], []⟩) ""
        [(some (Value.Text "u"), ArgSep.Long), (some (Value.Text "p"), ArgSep.End)]
        ⟨[], [], [], 0⟩).1.output = [] ∧
    (loginExec (fun _ _ => .ok ⟨[], ["hello", "world"]⟩) ""
        [(some (Value.Text "u"), ArgSep.Long), (some (Value.Text "p"), ArgSep.End)]
        ⟨[], [], [], 0⟩).1.output =
      [] ++ [""] ++ ["----- BEGIN SERVER MOTD -----"] ++ ["hello", "world"] ++
        ["-----  END SERVER MOTD  -----"] ++ [""] := by
  constructor
  · exact (c10_motd_framing (fun _ _ => .ok ⟨[], []⟩) "" "u" "p" ⟨[], [], [], 0⟩ ⟨[], []⟩
      (by simp) rfl).1 rfl
  · exact (c10_motd_framing (fun _ _ => .ok ⟨[], ["hello", "world"]⟩) "" "u" "p"
      ⟨[], [], [], 0⟩ ⟨[], ["hello", "world"]⟩ (by simp) rfl).2 (by simp)

/-! ### SHARE claim helper lemmas -/

theorem parse_acl_isOk_indep (t : List Nat) (a r a0 r0 : List (List Nat)) :
    (∃ x y, parse_acl t a r = .ok x y) → (∃ x y, parse_acl t a0 r0 = .ok x y) := by
  unfold parse_acl parse_acl_match
  intro h
  split_ifs at h ⊢ <;> simp_all

theorem foldl_sprint_updates (readers : List (List Nat)) :
    ∀ st : ShareState,
      (readers.foldl (fun s acl => sprint s (strBytes "    " ++ acl)) st).updates
        = st.updates := by
  induction readers with
  | nil => intro st; rfl
  | cons x xs ih => intro st; rw [List.foldl_cons, ih]; rfl

theorem showAcls_updates (ga : String → Except (List Nat) (List (List Nat)))
    (fn : String) (st : ShareState) : (showAcls ga fn st).1.updates = st.updates := by
  unfold showAcls
  cases hg : ga fn with
  | error e => rfl
  | ok readers =>
    by_cases hr : readers.isEmpty
    · simp only [hr, if_true]
      rfl
    · simp only [hr, Bool.false_eq_true, if_false]
      exact foldl_sprint_updates readers _

theorem showAcls_no_arg_error (ga : String → Except (List Nat) (List (List Nat)))
    (fn : String) (st : ShareState) (e : CallError)
    (h : (showAcls ga fn st).2 = .err e) : isArgErr e = false := by
  unfold showAcls at h
  cases hg : ga fn with
  | error e2 =>
    rw [hg] at h
    simp only [ShareOutcome.err.injEq] at h
    rw [← h]
    rfl
  | ok readers =>
    rw [hg] at h
    simp at h

theorem shareTailOk_of_shareLoop_done :
    ∀ (rest : List (Option Value × ArgSep)) (a r a2 r2 : List (List Nat)),
      shareLoop rest a r = .done a2 r2 → shareTailOk rest = true := by
  intro rest
  induction rest with
  | nil => intro a r a2 r2 _; rfl
  | cons arg tail ih =>
    obtain ⟨ov, sep⟩ := arg
    intro a r a2 r2 h
    cases ov with
    | none => simp [shareLoop] at h
    | some v =>
      by_cases hsep : sep = ArgSep.Short
      · simp [shareLoop, hsep] at h
      · cases v with
        | Text t =>
          cases hp : parse_acl (strBytes t) a r with
          | ok a1 r1 =>
            simp only [shareLoop, if_neg hsep, hp] at h
            have htail := ih a1 r1 a2 r2 h
            have htok : aclTokenOk t = true := by
              unfold aclTokenOk
              obtain ⟨x, y, hxy⟩ :=
                parse_acl_isOk_indep (strBytes t) a r [] [] ⟨a1, r1, hp⟩
              rw [hxy]
            simp [shareTailOk, hsep, htok, htail]
          | err m => simp [shareLoop, hsep, hp] at h
          | panicked => simp [shareLoop, hsep, hp] at h
        | Integer n => simp [shareLoop, hsep] at h
        | Boolean b => simp [shareLoop, hsep] at h

/-- **C8**: all of `SHARE`'s validation — argument presence, the filename
being a string, comma separation (any semicolon separator or non-comma first
separator is rejected), no empty argument slot, every ACL argument being a
string, and every ACL token parsing — happens before `update_acls` is
invoked: every invocation that returns an argument-class error leaves the
state (in particular the `update_acls` log, the proxy for all storage
mutations) completely unchanged, and `update_acls` is invoked only when
every one of those validations succeeded. -/
theorem c8_share_validates_before_update
    (ga : String → Except (List Nat) (List (List Nat)))
    (ua : String → List (List Nat) → List (List Nat) → Except (List Nat) Unit)
    (args : List (Option Value × ArgSep)) (st : ShareState) :
    (∀ e, (shareExec ga ua args st).2 = .err e → isArgErr e = true →
      (shareExec ga ua args st).1 = st) ∧
    ((shareExec ga ua args st).1.updates ≠ st.updates → shareArgsValid args = true) := by
  cases args with
  | nil => exact ⟨fun e _ _ => rfl, fun h => absurd rfl h⟩
  | cons arg rest =>
    obtain ⟨ov, sep⟩ := arg
    cases ov with
    | none => exact ⟨fun e _ _ => rfl, fun h => absurd rfl h⟩
    | some v =>
      cases v with
      | Integer n => exact ⟨fun e _ _ => rfl, fun h => absurd rfl h⟩
      | Boolean b => exact ⟨fun e _ _ => rfl, fun h => absurd rfl h⟩
      | Text filename =>
        show (∀ e, (shareExecNamed ga ua filename sep rest st).2 = .err e →
            isArgErr e = true → (shareExecNamed ga ua filename sep rest st).1 = st) ∧
          ((shareExecNamed ga ua filename sep rest st).1.updates ≠ st.updates →
            shareArgsValid ((some (Value.Text filename), sep) :: rest) = true)
        by_cases hEnd : sep = ArgSep.End
        · constructor
          · intro e he hae
            rw [shareExecNamed, if_pos hEnd] at he
            exact absurd (showAcls_no_arg_error ga filename st e he) (by simp [hae])
          · intro hup
            rw [shareExecNamed, if_pos hEnd] at hup
            exact absurd (showAcls_updates ga filename st) hup
        · by_cases hLong : sep = ArgSep.Long
          · rw [shareExecNamed, if_neg hEnd, if_neg (by simp [hLong])]
            cases hl : shareLoop rest [] [] with
            | failed m => exact ⟨fun e _ _ => rfl, fun h => absurd rfl h⟩
            | crashed => exact ⟨fun e he _ => absurd he (by simp), fun h => absurd rfl h⟩
            | done a r =>
              have hvalid : shareArgsValid ((some (Value.Text filename), sep) :: rest)
                  = true := by
                rw [hLong]
                exact shareTailOk_of_shareLoop_done rest [] [] a r hl
              refine ⟨fun e he hae => ?_, fun _ => hvalid⟩
              cases hu : ua filename a r with
              | ok u =>
                simp only [hu] at he
                simp at he
              | error e2 =>
                simp only [hu, ShareOutcome.err.injEq] at he
                rw [← he] at hae
                simp [isArgErr] at hae
          · rw [shareExecNamed, if_neg hEnd, if_pos (by simp [hLong])]
            exact ⟨fun e _ _ => rfl, fun h => absurd rfl h⟩

/-- **C8** (witness): the theorem applied to an argument-free `SHARE`
invocation, which is rejected with an argument-class error and leaves the
state unchanged. -/
theorem c8_witness :
    (shareExec (fun _ => .ok []) (fun _ _ _ => .ok ()) [] ⟨[], []⟩).1 =
      (⟨[], []⟩ : ShareState) :=
  (c8_share_validates_before_update (fun _ => .ok []) (fun _ _ _ => .ok ()) [] ⟨[], []⟩).1
    (.argumentError (strBytes "SHARE requires one or more arguments")) rfl rfl

/-- **C7** (witness): the enumeration theorem applied to the concrete
operation sequence that stores `"B"` then `"A"` and deletes neither. -/
theorem c7_witness :
    ∃ es, (applyOps [MemOp.putOp (strBytes "B") (strBytes "yz"),
        MemOp.putOp (strBytes "A") (strBytes "x")] ⟨[]⟩).enumerate = .ok es ∧
      pairsSorted es = true ∧
      (∀ n, (∃ m, (n, m) ∈ es) ↔ (∃ c, (applyOps [MemOp.putOp (strBytes "B") (strBytes "yz"),
        MemOp.putOp (strBytes "A") (strBytes "x")] ⟨[]⟩).get n = .ok c)) ∧
      (∀ n m, (n, m) ∈ es → ∃ c, (applyOps [MemOp.putOp (strBytes "B") (strBytes "yz"),
        MemOp.putOp (strBytes "A") (strBytes "x")] ⟨[]⟩).get n = .ok c ∧
        m.length = c.length ∧ m.date = memDriveDate) :=
  c7_enumerate_live_sorted [MemOp.putOp (strBytes "B") (strBytes "yz"),
    MemOp.putOp (strBytes "A") (strBytes "x")]
